import Mathlib

/-!
Verification development for the china-festival-mcp repository.

The development shallowly embeds the two components the specification
focuses on:

* the in-memory cache layer of src/src/utils/cache.py
  (SimpleCache and the disk-loading part of PersistentCache), and
* the holiday query engine, which exists twice in the repository:
  once in src/scripts/holiday_query.py (functions get_holiday_info,
  get_current_year_holidays, get_next_holiday) and once in
  src/src/server_fastmcp.py (tools holiday_info, current_year_holidays,
  next_holiday).

Conventions of the embedding:

* Python wall-clock time (time.time(), pendulum.now, datetime.now) is an
  external input; every operation that reads the clock takes an explicit
  time argument of type Nat (ticks).  A Python function that calls the
  clock several times during one operation is modelled with a single
  instant, which is faithful for the properties stated here.
* Python dicts used as key/value stores are modelled as insertion-ordered
  association lists (List (String x entry)); assignment to an existing
  key replaces the entry in place, assignment to a fresh key appends,
  matching CPython dict semantics.
* The remote fetch (fetch_holiday_data) is an external collaborator; its
  outcome is passed in as Option (List DayRecord), none meaning the fetch
  failed and no cached copy existed.
* Python float division (the hit-rate computation) is modelled by exact
  rational division.
* Python string comparison and parsing are modelled over the character
  list of the string (code-point order), which agrees with CPython for
  the ASCII date strings involved.
-/

/-! ## String helpers (models of Python str operations) -/

/-- Lexicographic comparison of character lists by code point; models
Python string ordering for the date strings used by the query engine. -/
def chLt : List Char → List Char → Bool
  | [], [] => false
  | [], _ :: _ => true
  | _ :: _, [] => false
  | a :: as, b :: bs => if a < b then true else if b < a then false else chLt as bs

/-- Model of the Python comparison s1 < s2 on strings. -/
def strLt (a b : String) : Bool := chLt a.data b.data

/-- Splits a character list at each hyphen; models str.split of the
date parser for the separator used by the YYYY-MM-DD format. -/
def splitDash : List Char → List (List Char)
  | [] => [[]]
  | c :: rest =>
    let r := splitDash rest
    if c = '-' then [] :: r
    else
      match r with
      | [] => [[c]]
      | g :: gs => (c :: g) :: gs

/-- Reads a non-empty all-digit character list as a decimal number;
models the numeric-field acceptance of datetime.strptime. -/
def digitsToNat? (cs : List Char) : Option Nat :=
  if cs ≠ [] ∧ cs.all (·.isDigit) then
    some (cs.foldl (fun a c => 10 * a + (c.toNat - 48)) 0)
  else none

/-! ## Calendar (model of Python datetime.date) -/

/-- Proleptic Gregorian calendar date, the model of Python
datetime.date values. -/
structure CalDate where
  y : Nat
  m : Nat
  d : Nat
  deriving DecidableEq, Repr

/-- Gregorian leap-year rule. -/
def isLeapYear (y : Nat) : Bool := (y % 4 == 0 && y % 100 != 0) || (y % 400 == 0)

/-- Length of a Gregorian month. -/
def daysInMonth (y m : Nat) : Nat :=
  if m = 2 then (if isLeapYear y then 29 else 28)
  else if m = 4 ∨ m = 6 ∨ m = 9 ∨ m = 11 then 30
  else 31

/-- Days contributed by the months strictly before month m of year y. -/
def daysBeforeMonth (y m : Nat) : Nat :=
  (List.range (m - 1)).foldl (fun a i => a + daysInMonth y (i + 1)) 0

/-- Rata-die day number (0001-01-01 has number 1); the difference of two
day numbers models Python date subtraction in days. -/
def toRataDie (dt : CalDate) : Nat :=
  365 * (dt.y - 1) + (dt.y - 1) / 4 - (dt.y - 1) / 100 + (dt.y - 1) / 400
    + daysBeforeMonth dt.y dt.m + dt.d

/-- Model of Python datetime.date.weekday: Monday is 0, Sunday is 6.
Rata-die day 1 (0001-01-01) is a Monday in the proleptic Gregorian
calendar. -/
def pythonWeekday (dt : CalDate) : Nat := (toRataDie dt + 6) % 7

/-- Strict comparison of dates; models Python date comparison. -/
def dateLt (a b : CalDate) : Bool :=
  a.y < b.y || (a.y == b.y && (a.m < b.m || (a.m == b.m && a.d < b.d)))

/-- Model of datetime.strptime(s, "%Y-%m-%d") followed by .date():
three hyphen-separated numeric fields, with month, day and year ranges
validated the way the datetime constructor validates them. -/
def parseDate (s : String) : Option CalDate :=
  match splitDash s.data with
  | [ys, ms, ds] =>
    match digitsToNat? ys, digitsToNat? ms, digitsToNat? ds with
    | some y, some m, some d =>
      if 1 ≤ y ∧ 1 ≤ m ∧ m ≤ 12 ∧ 1 ≤ d ∧ d ≤ daysInMonth y m then
        some ⟨y, m, d⟩
      else none
    | _, _, _ => none
  | _ => none

/-- Weekday names as indexed by the weekdays_en lists of
src/src/server_fastmcp.py. -/
def weekdayEn : Nat → String
  | 0 => "Monday"
  | 1 => "Tuesday"
  | 2 => "Wednesday"
  | 3 => "Thursday"
  | 4 => "Friday"
  | 5 => "Saturday"
  | 6 => "Sunday"
  | _ => ""

/-! ## Association lists (model of Python dict) -/

/-- First value stored under a key; models the dict lookup
self._cache[key] together with the membership test key in self._cache. -/
def assocFind {β : Type} : List (String × β) → String → Option β
  | [], _ => none
  | (k', v') :: rest, k => if k' = k then some v' else assocFind rest k

/-- Dict assignment self._cache[key] = v: replaces in place when the key
is present, appends when it is fresh. -/
def assocUpsert {β : Type} : List (String × β) → String → β → List (String × β)
  | [], k, v => [(k, v)]
  | (k', v') :: rest, k, v =>
    if k' = k then (k, v) :: rest else (k', v') :: assocUpsert rest k v

/-- Dict deletion del self._cache[key]: removes the first binding of the
key. -/
def assocErase {β : Type} : List (String × β) → String → List (String × β)
  | [], _ => []
  | (k', v') :: rest, k => if k' = k then rest else (k', v') :: assocErase rest k

/-! ## SimpleCache (src/src/utils/cache.py, class SimpleCache) -/

/-- One cache entry, the dict literal built by SimpleCache.set. -/
structure CacheEntry (α : Type) where
  value : α
  expires : Nat
  created : Nat
  last_accessed : Nat
  access_count : Nat
  deriving DecidableEq, Repr

/-- State of a SimpleCache instance: the entry mapping, the policy
fields and the four monotonic counters.  The lock only serialises the
operations and has no sequential behaviour of its own, so it is not
modelled. -/
structure SimpleCache (α : Type) where
  cache : List (String × CacheEntry α)
  default_ttl : Nat
  max_size : Nat
  hits : Nat
  misses : Nat
  sets : Nat
  deletes : Nat
  deriving DecidableEq, Repr

/-- Model of SimpleCache.__init__. -/
def SimpleCache.empty {α : Type} (default_ttl max_size : Nat) : SimpleCache α :=
  ⟨[], default_ttl, max_size, 0, 0, 0, 0⟩

/-- Model of SimpleCache.get at clock instant now: a live entry is a hit
that refreshes last_accessed, an expired entry is deleted and counted as
a miss and a delete, an absent key is a miss. -/
def SimpleCache.get {α : Type} (s : SimpleCache α) (now : Nat) (key : String) :
    Option α × SimpleCache α :=
  match assocFind s.cache key with
  | some entry =>
    if now < entry.expires then
      (some entry.value,
        { s with
          hits := s.hits + 1
          cache := assocUpsert s.cache key { entry with last_accessed := now } })
    else
      (none,
        { s with
          cache := assocErase s.cache key
          deletes := s.deletes + 1
          misses := s.misses + 1 })
  | none => (none, { s with misses := s.misses + 1 })

/-- Key with the oldest last_accessed among the remaining entries,
starting from a current best; models Python min over the keys with the
last_accessed selector, which keeps the earliest minimum. -/
def oldestAux {α : Type} : String → Nat → List (String × CacheEntry α) → String
  | k, _, [] => k
  | k, a, (k', e') :: rest =>
    if e'.last_accessed < a then oldestAux k' e'.last_accessed rest
    else oldestAux k a rest

/-- Key selected by SimpleCache._evict_oldest, none when the cache is
empty. -/
def oldestKey {α : Type} : List (String × CacheEntry α) → Option String
  | [] => none
  | (k, e) :: rest => some (oldestAux k e.last_accessed rest)

/-- Model of SimpleCache._evict_oldest. -/
def SimpleCache.evict_oldest {α : Type} (s : SimpleCache α) : SimpleCache α :=
  match oldestKey s.cache with
  | none => s
  | some k => { s with cache := assocErase s.cache k, deletes := s.deletes + 1 }

/-- Model of SimpleCache.set at clock instant now: evicts the oldest
entry when the store is at capacity and the key is fresh, then writes a
fresh entry with access_count 0 and counts the set. -/
def SimpleCache.set {α : Type} (s : SimpleCache α) (now : Nat) (key : String)
    (value : α) (ttl : Option Nat) : SimpleCache α :=
  let t := ttl.getD s.default_ttl
  let s1 :=
    if decide (s.max_size ≤ s.cache.length) && (assocFind s.cache key).isNone then
      s.evict_oldest
    else s
  let entry : CacheEntry α :=
    { value := value, expires := now + t, created := now, last_accessed := now
      access_count := 0 }
  { s1 with cache := assocUpsert s1.cache key entry, sets := s1.sets + 1 }

/-- Model of SimpleCache.delete. -/
def SimpleCache.delete {α : Type} (s : SimpleCache α) (key : String) :
    Bool × SimpleCache α :=
  match assocFind s.cache key with
  | some _ =>
    (true, { s with cache := assocErase s.cache key, deletes := s.deletes + 1 })
  | none => (false, s)

/-- Model of SimpleCache.clear. -/
def SimpleCache.clear {α : Type} (s : SimpleCache α) : SimpleCache α :=
  { s with cache := [], deletes := s.deletes + s.cache.length }

/-- Model of SimpleCache.cleanup at clock instant now. -/
def SimpleCache.cleanup {α : Type} (s : SimpleCache α) (now : Nat) :
    Nat × SimpleCache α :=
  let expired := s.cache.filter fun p => decide (p.2.expires ≤ now)
  (expired.length,
    { s with
      cache := s.cache.filter fun p => decide (now < p.2.expires)
      deletes := s.deletes + expired.length })

/-- Statistics record returned by SimpleCache.get_stats.  The
memory_usage_estimate diagnostic depends on the runtime string rendering
of the opaque payload and is outside the model. -/
structure CacheStats where
  total_entries : Nat
  active_entries : Nat
  expired_entries : Nat
  max_size : Nat
  hits : Nat
  misses : Nat
  sets : Nat
  deletes : Nat
  hit_rate : ℚ
  deriving DecidableEq, Repr

/-- Model of SimpleCache.get_stats at clock instant now; the float
division is modelled by rational division, guarded exactly as in the
source by the positivity test on hits + misses. -/
def SimpleCache.get_stats {α : Type} (s : SimpleCache α) (now : Nat) : CacheStats :=
  let total := s.cache.length
  let expired := (s.cache.filter fun p => decide (p.2.expires ≤ now)).length
  { total_entries := total
    active_entries := total - expired
    expired_entries := expired
    max_size := s.max_size
    hits := s.hits
    misses := s.misses
    sets := s.sets
    deletes := s.deletes
    hit_rate :=
      if 0 < s.hits + s.misses then (s.hits : ℚ) / ((s.hits : ℚ) + (s.misses : ℚ))
      else 0 }

/-- One iterated batch of set operations, used to state the size bound
over arbitrary operation sequences; each element carries the clock
instant, the key, the value and the optional ttl of one set call. -/
def applySets {α : Type} (s : SimpleCache α) :
    List (Nat × String × α × Option Nat) → SimpleCache α
  | [] => s
  | (now, k, v, ttl) :: rest => applySets (s.set now k v ttl) rest

/-! ## PersistentCache disk load (src/src/utils/cache.py, class PersistentCache) -/

/-- One durable cache file as seen by PersistentCache._load_from_disk:
either it deserialises to a key and an entry, or reading or parsing it
raises, which the source treats as corruption. -/
inductive DiskFile (α : Type) where
  | corrupt : DiskFile α
  | good : String → CacheEntry α → DiskFile α
  deriving DecidableEq, Repr

/-- Whether a durable record is readable and still unexpired at the
given instant; such records survive the load. -/
def DiskFile.keepAt {α : Type} (now : Nat) : DiskFile α → Bool
  | .corrupt => false
  | .good _ e => decide (now < e.expires)

/-- Loop body of PersistentCache._load_from_disk: walks the directory
listing in order, assigning unexpired readable records into the
in-memory mapping and leaving their files in place, while deleting
expired and corrupt files.  Returns the final mapping and the files
still on disk. -/
def loadAux {α : Type} (now : Nat) (mem : List (String × CacheEntry α)) :
    List (DiskFile α) → List (String × CacheEntry α) × List (DiskFile α)
  | [] => (mem, [])
  | .corrupt :: rest => loadAux now mem rest
  | .good k e :: rest =>
    if now < e.expires then
      let r := loadAux now (assocUpsert mem k e) rest
      (r.1, .good k e :: r.2)
    else loadAux now mem rest

/-- Model of PersistentCache._load_from_disk starting from the mapping
left by the superclass constructor, which is empty. -/
def load_from_disk {α : Type} (now : Nat) (files : List (DiskFile α)) :
    List (String × CacheEntry α) × List (DiskFile α) :=
  loadAux now [] files

/-- Model of PersistentCache.__init__: builds the empty SimpleCache
state and then hydrates the mapping from the durable records; counters
and size bound are untouched by the load.  Returns the constructed
in-memory state and the durable records that remain on disk. -/
def mkPersistentCache {α : Type} (default_ttl max_size : Nat) (now : Nat)
    (files : List (DiskFile α)) : SimpleCache α × List (DiskFile α) :=
  let r := load_from_disk now files
  ({ (SimpleCache.empty default_ttl max_size : SimpleCache α) with cache := r.1 }, r.2)

/-! ## Day records (the external holiday feed) -/

/-- One record of a year's holiday feed.  The source reads the fields
with dict .get and the defaults false and the empty string, so the
fields are modelled as total with those defaults standing for absent
keys. -/
structure DayRecord where
  date : String
  isOffDay : Bool
  name : String
  note : String
  deriving DecidableEq, Repr

/-! ## Holiday query engine, scripts variant
(src/scripts/holiday_query.py) -/

/-- Result shape of get_holiday_info and of the fastmcp holiday_info
tool without its extra weekday field. -/
structure HolidayInfo where
  date : String
  name : String
  type : String
  is_holiday : Bool
  is_work_day : Bool
  note : String
  deriving DecidableEq, Repr

/-- Model of get_holiday_info of src/scripts/holiday_query.py.  The
fetched year data arrives as an Option; none models fetch_holiday_data
returning None.  A raised strptime error is modelled by the error
outcome carrying the catch-all message marker of the source's except
branch. -/
def get_holiday_info (date_str : String) (holiday_data : Option (List DayRecord)) :
    Except String HolidayInfo :=
  match holiday_data with
  | none => .error "无节假日数据"
  | some days =>
    match days.find? (fun d => d.date == date_str) with
    | some date_info =>
      .ok
        { date := date_str
          name := date_info.name
          type := if date_info.isOffDay then "holiday" else "work"
          is_holiday := date_info.isOffDay
          is_work_day := !date_info.isOffDay
          note := date_info.note }
    | none =>
      match parseDate date_str with
      | none => .error "查询失败: 日期解析错误"
      | some dt =>
        let is_weekend := decide (5 ≤ pythonWeekday dt)
        .ok
          { date := date_str
            name := "普通日"
            type := "normal"
            is_holiday := is_weekend
            is_work_day := !is_weekend
            note := if is_weekend then "周末" else "工作日" }

/-- Projection appended by the holiday listing loops of the scripts
variant. -/
structure HolidayItem where
  date : String
  name : String
  note : String
  deriving DecidableEq, Repr

/-- Result shape of get_current_year_holidays. -/
structure YearHolidays where
  year : Nat
  holidays : List HolidayItem
  total_count : Nat
  deriving DecidableEq, Repr

/-- Model of get_current_year_holidays of src/scripts/holiday_query.py;
the year is the current year read from the clock and the data is the
fetch outcome for that year.  The loop appends a projection of every
record whose isOffDay flag is set, with no condition on the name. -/
def get_current_year_holidays (year : Nat) (holiday_data : Option (List DayRecord)) :
    Except String YearHolidays :=
  match holiday_data with
  | none => .error "无法获取节假日数据"
  | some days =>
    let holidays := days.foldl
      (fun acc day =>
        if day.isOffDay then acc ++ [⟨day.date, day.name, day.note⟩] else acc)
      ([] : List HolidayItem)
    .ok { year := year, holidays := holidays, total_count := holidays.length }

/-- Result shape of get_next_holiday. -/
structure NextHoliday where
  name : String
  date : String
  days_until : Int
  note : String
  deriving DecidableEq, Repr

/-- Model of get_next_holiday of src/scripts/holiday_query.py.  The
current date string and the two fetch outcomes are external inputs.  The
source concatenates the off-day records of both years, scans for the
first record whose date string compares greater than the current date
string, and only then parses the two date strings to count the days in
between; a parse failure there lands in the catch-all except branch. -/
def get_next_holiday (current_date : String)
    (holiday_data next_year_data : Option (List DayRecord)) :
    Except String NextHoliday :=
  let all1 : List DayRecord :=
    match holiday_data with
    | some ds =>
      ds.foldl (fun (a : List DayRecord) (d : DayRecord) =>
        if d.isOffDay then a ++ [d] else a) []
    | none => []
  let all_holidays : List DayRecord :=
    match next_year_data with
    | some ds =>
      ds.foldl (fun (a : List DayRecord) (d : DayRecord) =>
        if d.isOffDay then a ++ [d] else a) all1
    | none => all1
  match all_holidays.find? (fun h => strLt current_date h.date) with
  | some h =>
    match parseDate h.date, parseDate current_date with
    | some hd, some cd =>
      .ok
        { name := h.name
          date := h.date
          days_until := (toRataDie hd : Int) - (toRataDie cd : Int)
          note := h.note }
    | _, _ => .error "查询失败: 日期解析错误"
  | none => .error "未找到未来的节假日"

/-! ## Holiday query engine, server variant
(src/src/server_fastmcp.py) -/

/-- Result shape of the fastmcp holiday_info tool, which extends the
scripts result with the English weekday name. -/
structure HolidayInfoFm where
  date : String
  name : String
  type : String
  is_holiday : Bool
  is_work_day : Bool
  note : String
  weekday_name_en : String
  deriving DecidableEq, Repr

/-- Model of the holiday_info tool of src/src/server_fastmcp.py: the
date string is validated first, the weekday name is computed, and then
the exact record is looked up with the same weekend fallback as the
scripts variant. -/
def holiday_info (date : String) (holiday_data : Option (List DayRecord)) :
    Except String HolidayInfoFm :=
  match parseDate date with
  | none => .error "日期格式错误，请使用YYYY-MM-DD格式"
  | some date_obj =>
    let weekday_name_en := weekdayEn (pythonWeekday date_obj)
    match holiday_data with
    | none => .error "无法获取节假日数据"
    | some days =>
      match days.find? (fun d => d.date == date) with
      | some date_info =>
        .ok
          { date := date
            name := date_info.name
            type := if date_info.isOffDay then "holiday" else "work"
            is_holiday := date_info.isOffDay
            is_work_day := !date_info.isOffDay
            note := date_info.note
            weekday_name_en := weekday_name_en }
      | none =>
        let is_weekend := decide (5 ≤ pythonWeekday date_obj)
        .ok
          { date := date
            name := "普通日"
            type := "normal"
            is_holiday := is_weekend
            is_work_day := !is_weekend
            note := if is_weekend then "周末" else "工作日"
            weekday_name_en := weekday_name_en }

/-- Projection appended by the listing loop of the fastmcp
current_year_holidays tool; the weekday name is the empty string when
the record's date string does not parse, matching the inner try of the
source. -/
structure HolidayItemFm where
  date : String
  name : String
  note : String
  weekday_name_en : String
  deriving DecidableEq, Repr

/-- Result shape of the fastmcp current_year_holidays tool. -/
structure YearHolidaysFm where
  year : Nat
  holidays : List HolidayItemFm
  total_count : Nat
  deriving DecidableEq, Repr

/-- Weekday name of a record as computed inside the fastmcp listing
loops, with the failure branch yielding the empty string. -/
def recordWeekdayEn (d : DayRecord) : String :=
  match parseDate d.date with
  | some dt => weekdayEn (pythonWeekday dt)
  | none => ""

/-- Model of the current_year_holidays tool of
src/src/server_fastmcp.py: keeps exactly the records with isOffDay set
and a non-empty name. -/
def current_year_holidays (year : Nat) (holiday_data : Option (List DayRecord)) :
    Except String YearHolidaysFm :=
  match holiday_data with
  | none => .error "无法获取节假日数据"
  | some days =>
    let holidays := days.foldl
      (fun acc day =>
        if day.isOffDay && day.name != "" then
          acc ++ [⟨day.date, day.name, day.note, recordWeekdayEn day⟩]
        else acc)
      ([] : List HolidayItemFm)
    .ok { year := year, holidays := holidays, total_count := holidays.length }

/-- Result shape of the fastmcp next_holiday tool. -/
structure NextHolidayFm where
  date : String
  name : String
  note : String
  days_until : Int
  weekday_name_en : String
  deriving DecidableEq, Repr

/-- Current-year scan of the fastmcp next_holiday tool: the first record
with isOffDay set and a non-empty name whose parsed date lies strictly
after today.  Parsing happens inside the loop, so a candidate record
with an unparsable date string aborts the tool through its catch-all
except branch, modelled by the error outcome. -/
def findQualifying (today : CalDate) : List DayRecord → Except String (Option DayRecord)
  | [] => .ok none
  | d :: rest =>
    if d.isOffDay && d.name != "" then
      match parseDate d.date with
      | none => .error "查询失败: 日期解析错误"
      | some hd =>
        if dateLt today hd then .ok (some d) else findQualifying today rest
    else findQualifying today rest

/-- Model of the next_holiday tool of src/src/server_fastmcp.py: today
is the clock date, the fetch outcomes of today's year and the next year
are external inputs, and the next year is only consulted when the
current year's scan finds nothing.  The next-year scan takes the first
record with isOffDay set and a non-empty name without comparing dates.
The selected record's date is then parsed for the day count and the
weekday name. -/
def next_holiday (today : CalDate)
    (holiday_data next_year_data : Option (List DayRecord)) :
    Except String NextHolidayFm :=
  match holiday_data with
  | none => .error "无法获取节假日数据"
  | some days =>
    match findQualifying today days with
    | .error e => .error e
    | .ok found =>
      let info :=
        match found with
        | some d => some d
        | none =>
          match next_year_data with
          | some nds => nds.find? (fun d => d.isOffDay && d.name != "")
          | none => none
      match info with
      | none => .error "未找到下一个节假日"
      | some nh =>
        match parseDate nh.date with
        | none => .error "查询失败: 日期解析错误"
        | some hd =>
          .ok
            { date := nh.date
              name := nh.name
              note := nh.note
              days_until := (toRataDie hd : Int) - (toRataDie today : Int)
              weekday_name_en := weekdayEn (pythonWeekday hd) }

/-- Bool predicate of the current-year scan of the fastmcp next_holiday
tool, as a single test: isOffDay set, non-empty name, parsed date
strictly after today. -/
def qualifies (today : CalDate) (d : DayRecord) : Bool :=
  d.isOffDay && d.name != "" &&
    (match parseDate d.date with
     | some hd => dateLt today hd
     | none => false)

/-! ## Helper lemmas about the dict model -/

theorem assocFind_upsert_self {β : Type} (l : List (String × β)) (k : String) (v : β) :
    assocFind (assocUpsert l k v) k = some v := by
  induction l with
  | nil => simp [assocUpsert, assocFind]
  | cons p rest ih =>
    obtain ⟨k', v'⟩ := p
    by_cases h : k' = k
    · simp [assocUpsert, assocFind, h]
    · simp [assocUpsert, assocFind, h, ih]

theorem assocFind_upsert_ne {β : Type} (l : List (String × β)) (k k' : String) (v : β)
    (h : k' ≠ k) : assocFind (assocUpsert l k v) k' = assocFind l k' := by
  have h' : k ≠ k' := Ne.symm h
  induction l with
  | nil => simp [assocUpsert, assocFind, h']
  | cons p rest ih =>
    obtain ⟨k₀, v₀⟩ := p
    by_cases h0 : k₀ = k
    · subst h0
      simp [assocUpsert, assocFind, h']
    · simp [assocUpsert, assocFind, h0, ih]

theorem assocUpsert_length_of_find_some {β : Type} (l : List (String × β))
    (k : String) (v : β) (e : β) (h : assocFind l k = some e) :
    (assocUpsert l k v).length = l.length := by
  induction l with
  | nil => simp [assocFind] at h
  | cons p rest ih =>
    obtain ⟨k₀, v₀⟩ := p
    by_cases h0 : k₀ = k
    · simp [assocUpsert, h0]
    · simp [assocFind, h0] at h
      simp [assocUpsert, h0, ih h]

theorem assocUpsert_of_find_none {β : Type} (l : List (String × β))
    (k : String) (v : β) (h : assocFind l k = none) :
    assocUpsert l k v = l ++ [(k, v)] := by
  induction l with
  | nil => simp [assocUpsert]
  | cons p rest ih =>
    obtain ⟨k₀, v₀⟩ := p
    by_cases h0 : k₀ = k
    · simp [assocFind, h0] at h
    · simp [assocFind, h0] at h
      simp [assocUpsert, h0, ih h]

theorem assocErase_length {β : Type} (l : List (String × β)) (k : String)
    (h : assocFind l k ≠ none) : (assocErase l k).length + 1 = l.length := by
  induction l with
  | nil => simp [assocFind] at h
  | cons p rest ih =>
    obtain ⟨k₀, v₀⟩ := p
    by_cases h0 : k₀ = k
    · simp [assocErase, h0]
    · simp [assocFind, h0] at h
      simp [assocErase, h0, ih h]

theorem assocFind_erase_ne {β : Type} (l : List (String × β)) (k k' : String)
    (h : k' ≠ k) : assocFind (assocErase l k) k' = assocFind l k' := by
  induction l with
  | nil => simp [assocErase]
  | cons p rest ih =>
    obtain ⟨k₀, v₀⟩ := p
    by_cases h0 : k₀ = k
    · subst h0
      have h' : k₀ ≠ k' := Ne.symm h
      simp [assocErase, assocFind, h']
    · simp [assocErase, assocFind, h0, ih]

theorem assocFind_none_of_key_not_mem {β : Type} (l : List (String × β)) (k : String)
    (h : k ∉ l.map Prod.fst) : assocFind l k = none := by
  induction l with
  | nil => rfl
  | cons p rest ih =>
    obtain ⟨k₀, v₀⟩ := p
    rw [List.map_cons] at h
    have h1 : k₀ ≠ k := fun e => h (e ▸ List.mem_cons_self _ _)
    have h2 : k ∉ rest.map Prod.fst := fun hm => h (List.mem_cons_of_mem _ hm)
    simp [assocFind, h1, ih h2]

theorem assocErase_keys_subset {β : Type} (l : List (String × β)) (k k' : String)
    (h : k' ∈ (assocErase l k).map Prod.fst) : k' ∈ l.map Prod.fst := by
  induction l with
  | nil => simp [assocErase] at h
  | cons p rest ih =>
    obtain ⟨k₀, v₀⟩ := p
    rw [List.map_cons]
    by_cases h0 : k₀ = k
    · rw [show assocErase ((k₀, v₀) :: rest) k = rest from by simp [assocErase, h0]] at h
      exact List.mem_cons_of_mem _ h
    · rw [show assocErase ((k₀, v₀) :: rest) k = (k₀, v₀) :: assocErase rest k from by
        simp [assocErase, h0], List.map_cons] at h
      rcases List.mem_cons.mp h with h1 | h1
      · exact h1 ▸ List.mem_cons_self _ _
      · exact List.mem_cons_of_mem _ (ih h1)

theorem assocErase_keys_nodup {β : Type} (l : List (String × β)) (k : String)
    (h : (l.map Prod.fst).Nodup) : ((assocErase l k).map Prod.fst).Nodup := by
  induction l with
  | nil => simp [assocErase]
  | cons p rest ih =>
    obtain ⟨k₀, v₀⟩ := p
    rw [List.map_cons, List.nodup_cons] at h
    by_cases h0 : k₀ = k
    · rw [show assocErase ((k₀, v₀) :: rest) k = rest from by simp [assocErase, h0]]
      exact h.2
    · rw [show assocErase ((k₀, v₀) :: rest) k = (k₀, v₀) :: assocErase rest k from by
        simp [assocErase, h0], List.map_cons, List.nodup_cons]
      exact ⟨fun hm => h.1 (assocErase_keys_subset rest k k₀ hm), ih h.2⟩

theorem assocFind_erase_self {β : Type} (l : List (String × β)) (k : String)
    (h : (l.map Prod.fst).Nodup) : assocFind (assocErase l k) k = none := by
  induction l with
  | nil => rfl
  | cons p rest ih =>
    obtain ⟨k₀, v₀⟩ := p
    rw [List.map_cons, List.nodup_cons] at h
    by_cases h0 : k₀ = k
    · rw [show assocErase ((k₀, v₀) :: rest) k = rest from by simp [assocErase, h0]]
      exact assocFind_none_of_key_not_mem rest k (h0 ▸ h.1)
    · rw [show assocErase ((k₀, v₀) :: rest) k = (k₀, v₀) :: assocErase rest k from by
        simp [assocErase, h0]]
      simp [assocFind, h0, ih h.2]

theorem assocFind_ne_none_of_mem {β : Type} (l : List (String × β)) (k : String) (v : β)
    (h : (k, v) ∈ l) : assocFind l k ≠ none := by
  induction l with
  | nil => simp at h
  | cons p rest ih =>
    obtain ⟨k₀, v₀⟩ := p
    by_cases h0 : k₀ = k
    · simp [assocFind, h0]
    · rcases List.mem_cons.mp h with h1 | h1
      · exact absurd (congrArg Prod.fst h1).symm h0
      · simp only [assocFind, h0, if_false]
        exact ih h1

theorem assocFind_eq_of_mem_nodup {β : Type} (l : List (String × β)) (k : String) (v : β)
    (hn : (l.map Prod.fst).Nodup) (h : (k, v) ∈ l) : assocFind l k = some v := by
  induction l with
  | nil => simp at h
  | cons p rest ih =>
    obtain ⟨k₀, v₀⟩ := p
    rw [List.map_cons, List.nodup_cons] at hn
    rcases List.mem_cons.mp h with h1 | h1
    · injection h1 with e1 e2
      subst e1
      subst e2
      simp [assocFind]
    · have h0 : k₀ ≠ k := by
        intro e
        have hm : (k, v).1 ∈ rest.map Prod.fst := List.mem_map_of_mem Prod.fst h1
        rw [e] at hn
        exact hn.1 hm
      simp [assocFind, h0, ih hn.2 h1]

/-! ## Helper lemmas about eviction, list loops and scans -/

theorem oldestAux_spec {α : Type} (l : List (String × CacheEntry α)) :
    ∀ (k : String) (a : Nat),
      (oldestAux k a l = k ∧ ∀ p ∈ l, a ≤ p.2.last_accessed) ∨
      (∃ e, (oldestAux k a l, e) ∈ l ∧ e.last_accessed ≤ a ∧
        ∀ p ∈ l, e.last_accessed ≤ p.2.last_accessed) := by
  induction l with
  | nil => intro k a; exact Or.inl ⟨rfl, by simp⟩
  | cons p rest ih =>
    intro k a
    obtain ⟨k', e'⟩ := p
    by_cases h : e'.last_accessed < a
    · rw [show oldestAux k a ((k', e') :: rest) = oldestAux k' e'.last_accessed rest from by
        simp [oldestAux, h]]
      rcases ih k' e'.last_accessed with ⟨h1, h2⟩ | ⟨e, he, hea, hmin⟩
      · refine Or.inr ⟨e', ?_, le_of_lt h, ?_⟩
        · rw [h1]; exact List.mem_cons_self _ _
        · intro q hq
          rcases List.mem_cons.mp hq with hq | hq
          · rw [hq]
          · exact h2 q hq
      · refine Or.inr ⟨e, List.mem_cons_of_mem _ he, le_of_lt (lt_of_le_of_lt hea h), ?_⟩
        intro q hq
        rcases List.mem_cons.mp hq with hq | hq
        · rw [hq]; exact hea
        · exact hmin q hq
    · rw [show oldestAux k a ((k', e') :: rest) = oldestAux k a rest from by
        simp [oldestAux, h]]
      push_neg at h
      rcases ih k a with ⟨h1, h2⟩ | ⟨e, he, hea, hmin⟩
      · refine Or.inl ⟨h1, ?_⟩
        intro q hq
        rcases List.mem_cons.mp hq with hq | hq
        · rw [hq]; exact h
        · exact h2 q hq
      · refine Or.inr ⟨e, List.mem_cons_of_mem _ he, hea, ?_⟩
        intro q hq
        rcases List.mem_cons.mp hq with hq | hq
        · rw [hq]; exact le_trans hea h
        · exact hmin q hq

theorem oldestKey_spec {α : Type} (c : List (String × CacheEntry α)) (h : c ≠ []) :
    ∃ k e, oldestKey c = some k ∧ (k, e) ∈ c ∧
      ∀ p ∈ c, e.last_accessed ≤ p.2.last_accessed := by
  match c with
  | [] => exact absurd rfl h
  | (k0, e0) :: rest =>
    rcases oldestAux_spec rest k0 e0.last_accessed with ⟨h1, h2⟩ | ⟨e, he, hea, hmin⟩
    · refine ⟨oldestAux k0 e0.last_accessed rest, e0, rfl, ?_, ?_⟩
      · rw [h1]; exact List.mem_cons_self _ _
      · intro q hq
        rcases List.mem_cons.mp hq with hq | hq
        · rw [hq]
        · exact h2 q hq
    · refine ⟨oldestAux k0 e0.last_accessed rest, e, rfl, List.mem_cons_of_mem _ he, ?_⟩
      intro q hq
      rcases List.mem_cons.mp hq with hq | hq
      · rw [hq]; exact hea
      · exact hmin q hq

theorem foldl_filter_append {γ δ : Type} (p : γ → Bool) (f : γ → δ) :
    ∀ (l : List γ) (acc : List δ),
      l.foldl (fun a d => if p d then a ++ [f d] else a) acc =
        acc ++ (l.filter p).map f := by
  intro l
  induction l with
  | nil => intro acc; simp
  | cons d rest ih =>
    intro acc
    by_cases h : p d
    · simp [List.foldl_cons, h, ih, List.filter_cons]
    · simp [List.foldl_cons, h, ih, List.filter_cons]

theorem find?_min_of_pairwise {γ : Type} {R : γ → γ → Prop} {p : γ → Bool} :
    ∀ {l : List γ} {a : γ}, l.Pairwise R → l.find? p = some a →
      ∀ b ∈ l, p b = true → a = b ∨ R a b := by
  intro l
  induction l with
  | nil => intro a _ hf; simp [List.find?] at hf
  | cons x rest ih =>
    intro a hp hf b hb hpb
    rw [List.pairwise_cons] at hp
    by_cases hx : p x
    · rw [List.find?_cons_of_pos _ hx] at hf
      injection hf with hf
      subst hf
      rcases List.mem_cons.mp hb with hb | hb
      · exact Or.inl hb.symm
      · exact Or.inr (hp.1 b hb)
    · rw [List.find?_cons_of_neg _ hx] at hf
      rcases List.mem_cons.mp hb with hb | hb
      · rw [hb] at hpb
        exact absurd hpb (by simpa using hx)
      · exact ih hp.2 hf b hb hpb

/-! ## Helper lemmas about SimpleCache.set -/

theorem set_cache_eq {α : Type} (s : SimpleCache α) (now : Nat) (key : String)
    (value : α) (ttl : Option Nat) :
    (s.set now key value ttl).cache =
      assocUpsert
        (if decide (s.max_size ≤ s.cache.length) && (assocFind s.cache key).isNone then
          s.evict_oldest else s).cache
        key ⟨value, now + ttl.getD s.default_ttl, now, now, 0⟩ := by
  rfl

theorem set_find_self {α : Type} (s : SimpleCache α) (now : Nat) (key : String)
    (value : α) (ttl : Option Nat) :
    assocFind (s.set now key value ttl).cache key =
      some ⟨value, now + ttl.getD s.default_ttl, now, now, 0⟩ := by
  rw [set_cache_eq]
  exact assocFind_upsert_self _ _ _

theorem set_counters {α : Type} (s : SimpleCache α) (now : Nat) (key : String)
    (value : α) (ttl : Option Nat) :
    (s.set now key value ttl).hits = s.hits ∧
    (s.set now key value ttl).misses = s.misses ∧
    (s.set now key value ttl).sets = s.sets + 1 ∧
    (s.set now key value ttl).max_size = s.max_size ∧
    (s.set now key value ttl).default_ttl = s.default_ttl := by
  unfold SimpleCache.set
  by_cases h : decide (s.max_size ≤ s.cache.length) && (assocFind s.cache key).isNone
  · unfold SimpleCache.evict_oldest
    cases ho : oldestKey s.cache <;> simp [h, ho]
  · simp [h]

/-! ## Claim theorems -/

/-- C5: for all keys k, values v and positive ttl, a get performed after
set(k, v, ttl) and before the ttl has elapsed returns v, and a get
performed once the ttl has elapsed returns absent and increments the
miss counter reported by the statistics. -/
theorem set_then_get_roundtrip {α : Type} (s : SimpleCache α) (now : Nat) (k : String)
    (v : α) (ttl t' : Nat) (_hpos : 0 < ttl) :
    (t' < now + ttl → ((s.set now k v (some ttl)).get t' k).1 = some v) ∧
    (now + ttl ≤ t' →
      ((s.set now k v (some ttl)).get t' k).1 = none ∧
      ((s.set now k v (some ttl)).get t' k).2.misses = s.misses + 1 ∧
      (((s.set now k v (some ttl)).get t' k).2.get_stats t').misses = s.misses + 1) := by
  have hf := set_find_self s now k v (some ttl)
  have hm := (set_counters s now k v (some ttl)).2.1
  constructor
  · intro hlt
    simp [SimpleCache.get, hf, Option.getD, hlt]
  · intro hge
    have hnlt : ¬ t' < now + ttl := not_lt.mpr hge
    simp [SimpleCache.get, hf, Option.getD, hnlt, SimpleCache.get_stats, hm]

/-- Witness for C5 at a concrete store: a value set at instant 0 with
ttl 10 is returned by a get at instant 5 and gone at instant 12, where
the miss counter has moved from 0 to 1. -/
theorem set_then_get_roundtrip_witness :
    (((SimpleCache.empty 3600 1000 : SimpleCache Nat).set 0 "k" 7 (some 10)).get 5 "k").1 =
      some 7 ∧
    (((SimpleCache.empty 3600 1000 : SimpleCache Nat).set 0 "k" 7 (some 10)).get 12 "k").1 =
      none ∧
    (((SimpleCache.empty 3600 1000 : SimpleCache Nat).set 0 "k" 7 (some 10)).get 12 "k").2.misses =
      0 + 1 :=
  ⟨(set_then_get_roundtrip (SimpleCache.empty 3600 1000) 0 "k" 7 10 5 (by decide)).1 (by decide),
   ((set_then_get_roundtrip (SimpleCache.empty 3600 1000) 0 "k" 7 10 12 (by decide)).2
     (by decide)).1,
   ((set_then_get_roundtrip (SimpleCache.empty 3600 1000) 0 "k" 7 10 12 (by decide)).2
     (by decide)).2.1⟩

/-- C9: the hit rate reported by get_stats is hits divided by
hits plus misses whenever that sum is positive, with a denominator that
is provably non-zero, and is exactly 0 when both counters are zero. -/
theorem hit_rate_spec {α : Type} (s : SimpleCache α) (now : Nat) :
    (0 < s.hits + s.misses →
      (s.get_stats now).hit_rate = (s.hits : ℚ) / ((s.hits : ℚ) + (s.misses : ℚ)) ∧
      ((s.hits : ℚ) + (s.misses : ℚ)) ≠ 0) ∧
    (s.hits = 0 → s.misses = 0 → (s.get_stats now).hit_rate = 0) := by
  constructor
  · intro hpos
    constructor
    · simp [SimpleCache.get_stats, hpos]
    · have hq : (0 : ℚ) < (s.hits : ℚ) + (s.misses : ℚ) := by exact_mod_cast hpos
      exact ne_of_gt hq
  · intro h1 h2
    simp [SimpleCache.get_stats, h1, h2]

/-- Witness for C9: a store with one hit and one miss reports the rate
one half, and a fresh store reports 0. -/
theorem hit_rate_spec_witness :
    ((⟨[], 3600, 10, 1, 1, 0, 0⟩ : SimpleCache Nat).get_stats 0).hit_rate =
      ((1 : Nat) : ℚ) / (((1 : Nat) : ℚ) + ((1 : Nat) : ℚ)) ∧
    ((SimpleCache.empty 3600 10 : SimpleCache Nat).get_stats 0).hit_rate = 0 :=
  ⟨((hit_rate_spec (⟨[], 3600, 10, 1, 1, 0, 0⟩ : SimpleCache Nat) 0).1 (by decide)).1,
   (hit_rate_spec (SimpleCache.empty 3600 10 : SimpleCache Nat) 0).2 rfl rfl⟩

/-- C10: delete on an absent key returns false and leaves the whole
state unchanged; delete on a present key returns true, removes exactly
that entry, increments only the delete counter and leaves every other
entry and counter unchanged. -/
theorem delete_spec {α : Type} (s : SimpleCache α) (k : String) :
    (assocFind s.cache k = none → s.delete k = (false, s)) ∧
    (∀ e, assocFind s.cache k = some e → (s.cache.map Prod.fst).Nodup →
      (s.delete k).1 = true ∧
      assocFind (s.delete k).2.cache k = none ∧
      (∀ k', k' ≠ k → assocFind (s.delete k).2.cache k' = assocFind s.cache k') ∧
      (s.delete k).2.cache.length + 1 = s.cache.length ∧
      (s.delete k).2.deletes = s.deletes + 1 ∧
      (s.delete k).2.hits = s.hits ∧
      (s.delete k).2.misses = s.misses ∧
      (s.delete k).2.sets = s.sets) := by
  constructor
  · intro h
    simp [SimpleCache.delete, h]
  · intro e he hn
    refine ⟨by simp [SimpleCache.delete, he], ?_, ?_, ?_, ?_, ?_, ?_, ?_⟩ <;>
      simp [SimpleCache.delete, he]
    · exact assocFind_erase_self s.cache k hn
    · intro k' hk'
      exact assocFind_erase_ne s.cache k k' hk'
    · exact assocErase_length s.cache k (by simp [he])

/-- Witness for C10 at a one-entry store: deleting the present key
succeeds and empties the mapping, deleting an absent key is a no-op. -/
theorem delete_spec_witness :
    ((⟨[("a", ⟨7, 10, 0, 0, 0⟩)], 3600, 10, 0, 0, 1, 0⟩ : SimpleCache Nat).delete "a").1 =
      true ∧
    assocFind ((⟨[("a", ⟨7, 10, 0, 0, 0⟩)], 3600, 10, 0, 0, 1, 0⟩ :
      SimpleCache Nat).delete "a").2.cache "a" = none ∧
    ((⟨[("a", ⟨7, 10, 0, 0, 0⟩)], 3600, 10, 0, 0, 1, 0⟩ : SimpleCache Nat).delete "b") =
      (false, ⟨[("a", ⟨7, 10, 0, 0, 0⟩)], 3600, 10, 0, 0, 1, 0⟩) :=
  ⟨(((delete_spec (⟨[("a", ⟨7, 10, 0, 0, 0⟩)], 3600, 10, 0, 0, 1, 0⟩ : SimpleCache Nat)
      "a").2 ⟨7, 10, 0, 0, 0⟩ (by decide) (by decide))).1,
   (((delete_spec (⟨[("a", ⟨7, 10, 0, 0, 0⟩)], 3600, 10, 0, 0, 1, 0⟩ : SimpleCache Nat)
      "a").2 ⟨7, 10, 0, 0, 0⟩ (by decide) (by decide))).2.1,
   (delete_spec (⟨[("a", ⟨7, 10, 0, 0, 0⟩)], 3600, 10, 0, 0, 1, 0⟩ : SimpleCache Nat)
      "b").1 (by decide)⟩

/-- C4 (amended): get on a live entry returns its value, refreshes the
entry's last_accessed, increments only the store-wide hit counter, and
leaves the entry's access_count unchanged (the source initialises the
field to 0 at set and never increments it); get on an expired-but-present
entry deletes the entry, increments the miss and delete counters and
never returns the expired value; get on an absent key only counts a
miss. -/
theorem get_side_effects {α : Type} (s : SimpleCache α) (now : Nat) (k : String) :
    (∀ e, assocFind s.cache k = some e → now < e.expires →
      (s.get now k).1 = some e.value ∧
      assocFind (s.get now k).2.cache k = some { e with last_accessed := now } ∧
      ((assocFind (s.get now k).2.cache k).map (fun x => x.access_count)) =
        some e.access_count ∧
      (∀ k', k' ≠ k → assocFind (s.get now k).2.cache k' = assocFind s.cache k') ∧
      (s.get now k).2.hits = s.hits + 1 ∧
      (s.get now k).2.misses = s.misses ∧
      (s.get now k).2.deletes = s.deletes ∧
      (s.get now k).2.sets = s.sets) ∧
    (∀ e, assocFind s.cache k = some e → e.expires ≤ now →
      (s.cache.map Prod.fst).Nodup →
      (s.get now k).1 = none ∧
      assocFind (s.get now k).2.cache k = none ∧
      (∀ k', k' ≠ k → assocFind (s.get now k).2.cache k' = assocFind s.cache k') ∧
      (s.get now k).2.misses = s.misses + 1 ∧
      (s.get now k).2.deletes = s.deletes + 1 ∧
      (s.get now k).2.hits = s.hits ∧
      (s.get now k).2.sets = s.sets) ∧
    (assocFind s.cache k = none →
      s.get now k = (none, { s with misses := s.misses + 1 })) := by
  refine ⟨?_, ?_, ?_⟩
  · intro e he hlive
    refine ⟨?_, ?_, ?_, ?_, ?_, ?_, ?_, ?_⟩ <;> simp [SimpleCache.get, he, hlive]
    · exact assocFind_upsert_self s.cache k _
    · rw [assocFind_upsert_self s.cache k _]
      exact ⟨_, rfl, rfl⟩
    · intro k' hk'
      exact assocFind_upsert_ne s.cache k k' _ hk'
  · intro e he hexp hn
    have hnlt : ¬ now < e.expires := not_lt.mpr hexp
    refine ⟨?_, ?_, ?_, ?_, ?_, ?_, ?_⟩ <;> simp [SimpleCache.get, he, hnlt]
    · exact assocFind_erase_self s.cache k hn
    · intro k' hk'
      exact assocFind_erase_ne s.cache k k' hk'
  · intro he
    simp [SimpleCache.get, he]

/-- Counterexample to C4 as stated: after a set at instant 0 the stored
access_count is 0, and a hit get at instant 5 leaves it at 0 instead of
incrementing it to 1. -/
theorem get_access_count_counterexample :
    ((assocFind (((SimpleCache.empty 3600 1000 : SimpleCache Nat).set 0 "k" 7
        (some 10)).get 5 "k").2.cache "k").map (fun e => e.access_count)) = some 0 ∧
    ((assocFind (((SimpleCache.empty 3600 1000 : SimpleCache Nat).set 0 "k" 7
        (some 10)).get 5 "k").2.cache "k").map (fun e => e.access_count)) ≠ some 1 := by
  exact ⟨rfl, by decide⟩

/-- Witness for C4 at a concrete store: a hit at instant 5 on an entry
expiring at 10 and an expired access at instant 12. -/
theorem get_side_effects_witness :
    (((⟨[("k", ⟨7, 10, 0, 0, 0⟩)], 3600, 10, 0, 0, 1, 0⟩ : SimpleCache Nat).get 5 "k").1 =
      some 7 ∧
     ((⟨[("k", ⟨7, 10, 0, 0, 0⟩)], 3600, 10, 0, 0, 1, 0⟩ : SimpleCache Nat).get 5 "k").2.hits =
      0 + 1) ∧
    (((⟨[("k", ⟨7, 10, 0, 0, 0⟩)], 3600, 10, 0, 0, 1, 0⟩ : SimpleCache Nat).get 12 "k").1 =
      none ∧
     ((⟨[("k", ⟨7, 10, 0, 0, 0⟩)], 3600, 10, 0, 0, 1, 0⟩ : SimpleCache Nat).get 12 "k").2.misses =
      0 + 1) :=
  ⟨⟨((get_side_effects (⟨[("k", ⟨7, 10, 0, 0, 0⟩)], 3600, 10, 0, 0, 1, 0⟩ : SimpleCache Nat)
        5 "k").1 ⟨7, 10, 0, 0, 0⟩ (by decide) (by decide)).1,
    ((get_side_effects (⟨[("k", ⟨7, 10, 0, 0, 0⟩)], 3600, 10, 0, 0, 1, 0⟩ : SimpleCache Nat)
        5 "k").1 ⟨7, 10, 0, 0, 0⟩ (by decide) (by decide)).2.2.2.2.1⟩,
   ⟨((get_side_effects (⟨[("k", ⟨7, 10, 0, 0, 0⟩)], 3600, 10, 0, 0, 1, 0⟩ : SimpleCache Nat)
        12 "k").2.1 ⟨7, 10, 0, 0, 0⟩ (by decide) (by decide) (by decide)).1,
    ((get_side_effects (⟨[("k", ⟨7, 10, 0, 0, 0⟩)], 3600, 10, 0, 0, 1, 0⟩ : SimpleCache Nat)
        12 "k").2.1 ⟨7, 10, 0, 0, 0⟩ (by decide) (by decide) (by decide)).2.2.2.1⟩⟩

/-- Size preservation of one set call for a positive bound. -/
theorem set_length_le {α : Type} (s : SimpleCache α) (now : Nat) (k : String) (v : α)
    (ttl : Option Nat) (hm : 1 ≤ s.max_size) (hl : s.cache.length ≤ s.max_size) :
    (s.set now k v ttl).cache.length ≤ s.max_size := by
  cases hfind : assocFind s.cache k with
  | some e =>
    simp only [SimpleCache.set]
    simp [hfind]
    rw [assocUpsert_length_of_find_some _ _ _ _ hfind]
    exact hl
  | none =>
    by_cases hc : s.max_size ≤ s.cache.length
    · have hne : s.cache ≠ [] := by
        intro h0
        rw [h0] at hc
        simp at hc
        omega
      obtain ⟨kd, e, hok, hmem, _⟩ := oldestKey_spec s.cache hne
      have hkdn : assocFind s.cache kd ≠ none := assocFind_ne_none_of_mem _ _ _ hmem
      have hkdk : kd ≠ k := fun h => hkdn (h ▸ hfind)
      have hlen := assocErase_length s.cache kd hkdn
      have hfe : assocFind (assocErase s.cache kd) k = none := by
        rw [assocFind_erase_ne s.cache kd k (Ne.symm hkdk)]
        exact hfind
      simp only [SimpleCache.set, SimpleCache.evict_oldest]
      simp [hfind, hc, hok]
      rw [assocUpsert_of_find_none _ _ _ hfe, List.length_append]
      simp
      omega
    · have hlt : s.cache.length < s.max_size := not_le.mp hc
      simp only [SimpleCache.set]
      simp [hfind, hc]
      rw [assocUpsert_of_find_none _ _ _ hfind, List.length_append]
      simp
      omega

/-- Size bound along any sequence of set calls. -/
theorem applySets_length {α : Type} (ops : List (Nat × String × α × Option Nat)) :
    ∀ s : SimpleCache α, 1 ≤ s.max_size → s.cache.length ≤ s.max_size →
      (applySets s ops).cache.length ≤ (applySets s ops).max_size ∧
      (applySets s ops).max_size = s.max_size := by
  induction ops with
  | nil =>
    intro s _ h2
    exact ⟨h2, rfl⟩
  | cons op rest ih =>
    intro s h1 h2
    obtain ⟨now, k, v, ttl⟩ := op
    have hmax := (set_counters s now k v ttl).2.2.2.1
    have hlen : (s.set now k v ttl).cache.length ≤ (s.set now k v ttl).max_size := by
      rw [hmax]
      exact set_length_le s now k v ttl h1 h2
    have h1' : 1 ≤ (s.set now k v ttl).max_size := by
      rw [hmax]
      exact h1
    obtain ⟨ha, hb⟩ := ih (s.set now k v ttl) h1' hlen
    simp only [applySets]
    exact ⟨ha, by rw [hb, hmax]⟩

/-- C3 (amended): with a positive size bound, no sequence of set calls
starting from the empty store leaves the entry count above max_size; a
set at capacity with a fresh key evicts exactly one entry — one whose
last_accessed is minimal among the current entries — before inserting,
incrementing the delete counter once and leaving all other entries in
place; a set on a present key overwrites in place with no eviction.
The positivity restriction is forced: with max_size = 0 a single set
leaves one entry, above the bound. -/
theorem cache_size_and_eviction {α : Type} (s : SimpleCache α) (now : Nat) (k : String)
    (v : α) (ttl : Option Nat) :
    (1 ≤ s.max_size → s.cache.length ≤ s.max_size →
      (s.set now k v ttl).cache.length ≤ s.max_size) ∧
    (∀ (ttl0 m : Nat) (ops : List (Nat × String × α × Option Nat)), 1 ≤ m →
      (applySets (SimpleCache.empty ttl0 m : SimpleCache α) ops).cache.length ≤ m) ∧
    (s.max_size ≤ s.cache.length → assocFind s.cache k = none → 1 ≤ s.max_size →
      (s.cache.map Prod.fst).Nodup →
      ∃ kd e, kd ≠ k ∧ (kd, e) ∈ s.cache ∧
        (∀ p ∈ s.cache, e.last_accessed ≤ p.2.last_accessed) ∧
        assocFind (s.set now k v ttl).cache kd = none ∧
        assocFind (s.set now k v ttl).cache k =
          some ⟨v, now + ttl.getD s.default_ttl, now, now, 0⟩ ∧
        (∀ k', k' ≠ k → k' ≠ kd →
          assocFind (s.set now k v ttl).cache k' = assocFind s.cache k') ∧
        (s.set now k v ttl).cache.length = s.cache.length ∧
        (s.set now k v ttl).deletes = s.deletes + 1) ∧
    (∀ e, assocFind s.cache k = some e →
      (s.set now k v ttl).cache.length = s.cache.length ∧
      (∀ k', k' ≠ k → assocFind (s.set now k v ttl).cache k' = assocFind s.cache k') ∧
      (s.set now k v ttl).deletes = s.deletes) := by
  refine ⟨set_length_le s now k v ttl, ?_, ?_, ?_⟩
  · intro ttl0 m ops hm
    have h := applySets_length ops (SimpleCache.empty ttl0 m : SimpleCache α) hm (by simp [SimpleCache.empty])
    rw [h.2] at h
    exact h.1
  · intro hc hfind hm hn
    have hne : s.cache ≠ [] := by
      intro h0
      rw [h0] at hc
      simp at hc
      omega
    obtain ⟨kd, e, hok, hmem, hmin⟩ := oldestKey_spec s.cache hne
    have hkdn : assocFind s.cache kd ≠ none := assocFind_ne_none_of_mem _ _ _ hmem
    have hkdk : kd ≠ k := fun h => hkdn (h ▸ hfind)
    have hfe : assocFind (assocErase s.cache kd) k = none := by
      rw [assocFind_erase_ne s.cache kd k (Ne.symm hkdk)]
      exact hfind
    have hcache : (s.set now k v ttl).cache =
        assocUpsert (assocErase s.cache kd) k
          ⟨v, now + ttl.getD s.default_ttl, now, now, 0⟩ := by
      simp only [SimpleCache.set, SimpleCache.evict_oldest]
      simp [hfind, hc, hok]
    have hdel : (s.set now k v ttl).deletes = s.deletes + 1 := by
      simp only [SimpleCache.set, SimpleCache.evict_oldest]
      simp [hfind, hc, hok]
    refine ⟨kd, e, hkdk, hmem, hmin, ?_, ?_, ?_, ?_, hdel⟩
    · rw [hcache, assocFind_upsert_ne _ _ _ _ hkdk, assocFind_erase_self _ _ hn]
    · rw [hcache]
      exact assocFind_upsert_self _ _ _
    · intro k' hk'k hk'kd
      rw [hcache, assocFind_upsert_ne _ _ _ _ hk'k, assocFind_erase_ne _ _ _ hk'kd]
    · have hlen := assocErase_length s.cache kd hkdn
      rw [hcache, assocUpsert_of_find_none _ _ _ hfe, List.length_append]
      simp
      omega
  · intro e hfind
    have hcache : (s.set now k v ttl).cache =
        assocUpsert s.cache k ⟨v, now + ttl.getD s.default_ttl, now, now, 0⟩ := by
      simp only [SimpleCache.set]
      simp [hfind]
    refine ⟨?_, ?_, ?_⟩
    · rw [hcache]
      exact assocUpsert_length_of_find_some _ _ _ _ hfind
    · intro k' hk'
      rw [hcache, assocFind_upsert_ne _ _ _ _ hk']
    · simp only [SimpleCache.set]
      simp [hfind]

/-- Counterexample to C3 as stated: with max_size 0 a single set on the
empty store leaves one entry, which is above the bound, because the
eviction pass on an empty mapping removes nothing. -/
theorem max_size_zero_counterexample :
    ((SimpleCache.empty 3600 0 : SimpleCache Nat).set 0 "a" 7 none).cache.length = 1 ∧
    ((SimpleCache.empty 3600 0 : SimpleCache Nat).set 0 "a" 7 none).max_size = 0 := by
  decide

/-- Witness for C3 at a concrete store of capacity 2 holding entries for
keys a and b where b is older: setting the fresh key c evicts b. -/
theorem cache_size_and_eviction_witness :
    (∃ kd e, kd ≠ "c" ∧
      (kd, e) ∈ [("a", (⟨1, 10, 0, 5, 0⟩ : CacheEntry Nat)), ("b", ⟨2, 10, 0, 3, 0⟩)] ∧
      (∀ p ∈ [("a", (⟨1, 10, 0, 5, 0⟩ : CacheEntry Nat)), ("b", ⟨2, 10, 0, 3, 0⟩)],
        e.last_accessed ≤ p.2.last_accessed) ∧
      assocFind ((⟨[("a", ⟨1, 10, 0, 5, 0⟩), ("b", ⟨2, 10, 0, 3, 0⟩)], 3600, 2, 0, 0, 2, 0⟩ :
        SimpleCache Nat).set 6 "c" 9 none).cache kd = none ∧
      assocFind ((⟨[("a", ⟨1, 10, 0, 5, 0⟩), ("b", ⟨2, 10, 0, 3, 0⟩)], 3600, 2, 0, 0, 2, 0⟩ :
        SimpleCache Nat).set 6 "c" 9 none).cache "c" =
        some ⟨9, 6 + (none : Option Nat).getD 3600, 6, 6, 0⟩ ∧
      (∀ k', k' ≠ "c" → k' ≠ kd →
        assocFind ((⟨[("a", ⟨1, 10, 0, 5, 0⟩), ("b", ⟨2, 10, 0, 3, 0⟩)], 3600, 2, 0, 0, 2, 0⟩ :
          SimpleCache Nat).set 6 "c" 9 none).cache k' =
        assocFind [("a", ⟨1, 10, 0, 5, 0⟩), ("b", ⟨2, 10, 0, 3, 0⟩)] k') ∧
      ((⟨[("a", ⟨1, 10, 0, 5, 0⟩), ("b", ⟨2, 10, 0, 3, 0⟩)], 3600, 2, 0, 0, 2, 0⟩ :
        SimpleCache Nat).set 6 "c" 9 none).cache.length =
        [("a", (⟨1, 10, 0, 5, 0⟩ : CacheEntry Nat)), ("b", ⟨2, 10, 0, 3, 0⟩)].length ∧
      ((⟨[("a", ⟨1, 10, 0, 5, 0⟩), ("b", ⟨2, 10, 0, 3, 0⟩)], 3600, 2, 0, 0, 2, 0⟩ :
        SimpleCache Nat).set 6 "c" 9 none).deletes = 0 + 1) ∧
    (applySets (SimpleCache.empty 3600 2 : SimpleCache Nat)
      [(0, "a", 1, none), (1, "b", 2, none), (2, "c", 3, none),
       (3, "d", 4, none)]).cache.length ≤ 2 :=
  ⟨(cache_size_and_eviction
      (⟨[("a", ⟨1, 10, 0, 5, 0⟩), ("b", ⟨2, 10, 0, 3, 0⟩)], 3600, 2, 0, 0, 2, 0⟩ :
        SimpleCache Nat) 6 "c" 9 none).2.2.1
      (by decide) (by decide) (by decide) (by decide),
   (cache_size_and_eviction (SimpleCache.empty 3600 2 : SimpleCache Nat) 0 "x" 0
      none).2.1 3600 2
      [(0, "a", 1, none), (1, "b", 2, none), (2, "c", 3, none), (3, "d", 4, none)]
      (by decide)⟩

/-- Lookup across an append scans the left part first. -/
theorem assocFind_append {β : Type} (l1 l2 : List (String × β)) (k : String) :
    assocFind (l1 ++ l2) k =
      match assocFind l1 k with
      | some v => some v
      | none => assocFind l2 k := by
  induction l1 with
  | nil => simp [assocFind]
  | cons p rest ih =>
    obtain ⟨k0, v0⟩ := p
    by_cases h0 : k0 = k
    · simp [assocFind, h0]
    · simp [assocFind, h0, ih]

/-- Characterisation of the disk-load loop: with pairwise-distinct keys
among the readable files and a mapping that does not yet bind them, the
loop extends the mapping by exactly the unexpired readable records, in
file order, and keeps exactly those files on disk. -/
theorem loadAux_spec {α : Type} (now : Nat) (files : List (DiskFile α)) :
    ∀ mem : List (String × CacheEntry α),
      (files.filterMap (fun f => match f with
        | .corrupt => none
        | .good kk _ => some kk)).Nodup →
      (∀ kk, kk ∈ files.filterMap (fun f => match f with
        | .corrupt => none
        | .good kk' _ => some kk') → assocFind mem kk = none) →
      loadAux now mem files =
        (mem ++ files.filterMap (fun f => match f with
          | .corrupt => none
          | .good kk e => if now < e.expires then some (kk, e) else none),
         files.filter (DiskFile.keepAt now)) := by
  induction files with
  | nil => intro mem _ _; simp [loadAux]
  | cons f rest ih =>
    intro mem hnodup hmem
    cases f with
    | corrupt =>
      simp only [List.filterMap_cons] at hnodup hmem ⊢
      simp only [loadAux]
      rw [ih mem hnodup hmem]
      simp [List.filter_cons, DiskFile.keepAt]
    | good kk e =>
      simp only [List.filterMap_cons] at hnodup hmem ⊢
      rw [List.nodup_cons] at hnodup
      have hk : assocFind mem kk = none := hmem kk (List.mem_cons_self _ _)
      by_cases hlt : now < e.expires
      · have hmem' : ∀ kk', kk' ∈ rest.filterMap (fun f => match f with
            | .corrupt => none
            | .good kk' _ => some kk') → assocFind (mem ++ [(kk, e)]) kk' = none := by
          intro kk' hkk'
          rw [assocFind_append]
          rw [hmem kk' (List.mem_cons_of_mem _ hkk')]
          have hne : kk ≠ kk' := by
            intro h
            rw [h] at hnodup
            exact hnodup.1 hkk'
          simp [assocFind, hne]
        simp only [loadAux]
        rw [if_pos hlt, assocUpsert_of_find_none mem kk e hk, ih (mem ++ [(kk, e)]) hnodup.2 hmem']
        simp [List.filter_cons, DiskFile.keepAt, hlt, List.append_assoc]
      · have hmem' : ∀ kk', kk' ∈ rest.filterMap (fun f => match f with
            | .corrupt => none
            | .good kk' _ => some kk') → assocFind mem kk' = none := by
          intro kk' hkk'
          exact hmem kk' (List.mem_cons_of_mem _ hkk')
        simp only [loadAux]
        rw [if_neg hlt, ih mem hnodup.2 hmem']
        simp [List.filter_cons, DiskFile.keepAt, hlt]

/-- C8: construction of the persistent cache loads into memory exactly
the readable durable records whose expiry lies in the future, in file
order; exactly the unexpired readable files remain on disk, so expired
records and corrupt records are deleted; the load is a total function of
the directory contents — corrupt files are consumed without surfacing
any error — and the counters and policy fields of the fresh store are
untouched. -/
theorem persistent_load_spec {α : Type} (default_ttl max_size now : Nat)
    (files : List (DiskFile α))
    (hnodup : (files.filterMap (fun f => match f with
      | .corrupt => none
      | .good kk _ => some kk)).Nodup) :
    (mkPersistentCache default_ttl max_size now files).1.cache =
      files.filterMap (fun f => match f with
        | .corrupt => none
        | .good kk e => if now < e.expires then some (kk, e) else none) ∧
    (mkPersistentCache default_ttl max_size now files).2 =
      files.filter (DiskFile.keepAt now) ∧
    (∀ kk e, (kk, e) ∈ (mkPersistentCache default_ttl max_size now files).1.cache ↔
      (DiskFile.good kk e ∈ files ∧ now < e.expires)) ∧
    DiskFile.corrupt ∉ (mkPersistentCache default_ttl max_size now files).2 ∧
    (∀ kk e, ¬ now < e.expires →
      DiskFile.good kk e ∉ (mkPersistentCache default_ttl max_size now files).2) ∧
    (mkPersistentCache default_ttl max_size now files).1.hits = 0 ∧
    (mkPersistentCache default_ttl max_size now files).1.misses = 0 ∧
    (mkPersistentCache default_ttl max_size now files).1.sets = 0 ∧
    (mkPersistentCache default_ttl max_size now files).1.deletes = 0 ∧
    (mkPersistentCache default_ttl max_size now files).1.default_ttl = default_ttl ∧
    (mkPersistentCache default_ttl max_size now files).1.max_size = max_size := by
  have hload := loadAux_spec now files [] hnodup (by intro kk _; rfl)
  have hcache : (mkPersistentCache default_ttl max_size now files).1.cache =
      files.filterMap (fun f => match f with
        | .corrupt => none
        | .good kk e => if now < e.expires then some (kk, e) else none) := by
    simp only [mkPersistentCache, load_from_disk]
    rw [hload]
    simp
  have hdisk : (mkPersistentCache default_ttl max_size now files).2 =
      files.filter (DiskFile.keepAt now) := by
    simp only [mkPersistentCache, load_from_disk]
    rw [hload]
  refine ⟨hcache, hdisk, ?_, ?_, ?_, rfl, rfl, rfl, rfl, rfl, rfl⟩
  · intro kk e
    rw [hcache]
    constructor
    · intro hmem
      obtain ⟨f, hf, hgf⟩ := List.mem_filterMap.mp hmem
      cases f with
      | corrupt => simp at hgf
      | good kk' e' =>
        dsimp only at hgf
        by_cases hlt : now < e'.expires
        · rw [if_pos hlt] at hgf
          injection hgf with hgf
          injection hgf with h1 h2
          subst h1
          subst h2
          exact ⟨hf, hlt⟩
        · rw [if_neg hlt] at hgf
          simp at hgf
    · intro ⟨hf, hlt⟩
      refine List.mem_filterMap.mpr ⟨DiskFile.good kk e, hf, ?_⟩
      dsimp only
      rw [if_pos hlt]
  · rw [hdisk]
    intro hmem
    have := (List.mem_filter.mp hmem).2
    simp [DiskFile.keepAt] at this
  · intro kk e hlt
    rw [hdisk]
    intro hmem
    have := (List.mem_filter.mp hmem).2
    simp [DiskFile.keepAt] at this
    exact hlt this

/-- Witness for C8 at a concrete directory holding an unexpired record,
an expired record and a corrupt file, loaded at instant 5. -/
theorem persistent_load_spec_witness :
    (mkPersistentCache 3600 10 5
      [DiskFile.good "a" (⟨1, 10, 0, 0, 0⟩ : CacheEntry Nat),
       DiskFile.good "b" ⟨2, 3, 0, 0, 0⟩, DiskFile.corrupt]).1.cache =
      [DiskFile.good "a" (⟨1, 10, 0, 0, 0⟩ : CacheEntry Nat),
       DiskFile.good "b" ⟨2, 3, 0, 0, 0⟩, DiskFile.corrupt].filterMap
        (fun f => match f with
          | .corrupt => none
          | .good kk e => if 5 < e.expires then some (kk, e) else none) ∧
    (mkPersistentCache 3600 10 5
      [DiskFile.good "a" (⟨1, 10, 0, 0, 0⟩ : CacheEntry Nat),
       DiskFile.good "b" ⟨2, 3, 0, 0, 0⟩, DiskFile.corrupt]).2 =
      [DiskFile.good "a" (⟨1, 10, 0, 0, 0⟩ : CacheEntry Nat),
       DiskFile.good "b" ⟨2, 3, 0, 0, 0⟩, DiskFile.corrupt].filter (DiskFile.keepAt 5) ∧
    DiskFile.corrupt ∉ (mkPersistentCache 3600 10 5
      [DiskFile.good "a" (⟨1, 10, 0, 0, 0⟩ : CacheEntry Nat),
       DiskFile.good "b" ⟨2, 3, 0, 0, 0⟩, DiskFile.corrupt]).2 :=
  ⟨(persistent_load_spec 3600 10 5 _ (by decide)).1,
   (persistent_load_spec 3600 10 5 _ (by decide)).2.1,
   (persistent_load_spec 3600 10 5
      [DiskFile.good "a" (⟨1, 10, 0, 0, 0⟩ : CacheEntry Nat),
       DiskFile.good "b" ⟨2, 3, 0, 0, 0⟩, DiskFile.corrupt] (by decide)).2.2.2.1⟩

/-- C6: for a parsable date and a resolvable year list, both lookup
implementations classify by the exact record's isOffDay when a record
for the date exists, and otherwise fall back to the weekend/weekday
classification without failing; in particular the Sunday 2024-06-16
absent from the list yields the ordinary-day answer with name 普通日,
type normal, is_holiday true and is_work_day false. -/
theorem holiday_info_classification (date_str : String) (days : List DayRecord)
    (dt : CalDate) (hp : parseDate date_str = some dt) :
    (∀ di, days.find? (fun d => d.date == date_str) = some di →
      get_holiday_info date_str (some days) =
        .ok ⟨date_str, di.name, if di.isOffDay then "holiday" else "work",
          di.isOffDay, !di.isOffDay, di.note⟩ ∧
      holiday_info date_str (some days) =
        .ok ⟨date_str, di.name, if di.isOffDay then "holiday" else "work",
          di.isOffDay, !di.isOffDay, di.note, weekdayEn (pythonWeekday dt)⟩) ∧
    (days.find? (fun d => d.date == date_str) = none →
      get_holiday_info date_str (some days) =
        .ok ⟨date_str, "普通日", "normal", decide (5 ≤ pythonWeekday dt),
          !(decide (5 ≤ pythonWeekday dt)),
          if decide (5 ≤ pythonWeekday dt) then "周末" else "工作日"⟩ ∧
      holiday_info date_str (some days) =
        .ok ⟨date_str, "普通日", "normal", decide (5 ≤ pythonWeekday dt),
          !(decide (5 ≤ pythonWeekday dt)),
          if decide (5 ≤ pythonWeekday dt) then "周末" else "工作日",
          weekdayEn (pythonWeekday dt)⟩) ∧
    (get_holiday_info "2024-06-16" (some []) =
      .ok ⟨"2024-06-16", "普通日", "normal", true, false, "周末"⟩ ∧
     holiday_info "2024-06-16" (some []) =
      .ok ⟨"2024-06-16", "普通日", "normal", true, false, "周末", "Sunday"⟩) := by
  refine ⟨?_, ?_, rfl, rfl⟩
  · intro di hfind
    constructor
    · simp [get_holiday_info, hfind]
    · simp [holiday_info, hp, hfind]
  · intro hfind
    constructor
    · simp [get_holiday_info, hfind, hp]
    · simp [holiday_info, hp, hfind]

/-- Witness for C6: the National Day record is classified from its
isOffDay flag, and an absent Saturday date falls back to the ordinary
weekend answer. -/
theorem holiday_info_classification_witness :
    get_holiday_info "2024-10-01" (some [⟨"2024-10-01", true, "国庆节", "x"⟩]) =
      .ok ⟨"2024-10-01", "国庆节", "holiday", true, false, "x"⟩ ∧
    get_holiday_info "2024-06-15" (some [⟨"2024-10-01", true, "国庆节", "x"⟩]) =
      .ok ⟨"2024-06-15", "普通日", "normal", true, false, "周末"⟩ :=
  ⟨((holiday_info_classification "2024-10-01" [⟨"2024-10-01", true, "国庆节", "x"⟩]
      ⟨2024, 10, 1⟩ (by decide)).1 ⟨"2024-10-01", true, "国庆节", "x"⟩ (by decide)).1,
   ((holiday_info_classification "2024-06-15" [⟨"2024-10-01", true, "国庆节", "x"⟩]
      ⟨2024, 6, 15⟩ (by decide)).2.1 (by decide)).1⟩

/-- C7 (amended): the server listing keeps exactly the records with
isOffDay set and a non-empty name, in list order, so an ascending input
order is preserved; the scripts listing instead keeps every record with
isOffDay set, with no condition on the name, likewise preserving order.
Both project to date, name and note, the server adding the English
weekday name. -/
theorem year_holidays_characterization (year : Nat) (days : List DayRecord) :
    (get_current_year_holidays year (some days) =
      .ok ⟨year,
        (days.filter (fun d => d.isOffDay)).map (fun d => ⟨d.date, d.name, d.note⟩),
        ((days.filter (fun d => d.isOffDay)).map
          (fun d => (⟨d.date, d.name, d.note⟩ : HolidayItem))).length⟩) ∧
    (current_year_holidays year (some days) =
      .ok ⟨year,
        (days.filter (fun d => d.isOffDay && d.name != "")).map
          (fun d => ⟨d.date, d.name, d.note, recordWeekdayEn d⟩),
        ((days.filter (fun d => d.isOffDay && d.name != "")).map
          (fun d => (⟨d.date, d.name, d.note, recordWeekdayEn d⟩ : HolidayItemFm))).length⟩) ∧
    (∀ R : String → String → Prop, days.Pairwise (fun a b => R a.date b.date) →
      ((days.filter (fun d => d.isOffDay && d.name != "")).map
        (fun d => (⟨d.date, d.name, d.note, recordWeekdayEn d⟩ : HolidayItemFm))).Pairwise
        (fun a b => R a.date b.date) ∧
      ((days.filter (fun d => d.isOffDay)).map
        (fun d => (⟨d.date, d.name, d.note⟩ : HolidayItem))).Pairwise
        (fun a b => R a.date b.date)) := by
  refine ⟨?_, ?_, ?_⟩
  · simp only [get_current_year_holidays]
    rw [foldl_filter_append (fun d => d.isOffDay)
      (fun d => (⟨d.date, d.name, d.note⟩ : HolidayItem)) days []]
    simp
  · simp only [current_year_holidays]
    rw [foldl_filter_append (fun d => d.isOffDay && d.name != "")
      (fun d => (⟨d.date, d.name, d.note, recordWeekdayEn d⟩ : HolidayItemFm)) days []]
    simp
  · intro R h
    exact ⟨List.pairwise_map.mpr (h.filter _), List.pairwise_map.mpr (h.filter _)⟩

/-- Counterexample to C7 as stated: a compensatory-style record with
isOffDay true and an empty name is included by the scripts listing,
while the claim prescribes that only records with a non-empty name
appear. -/
theorem year_holidays_counterexample :
    get_current_year_holidays 2024 (some [⟨"2024-05-01", true, "", ""⟩]) =
      .ok ⟨2024, [⟨"2024-05-01", "", ""⟩], 1⟩ ∧
    (get_current_year_holidays 2024 (some [⟨"2024-05-01", true, "", ""⟩])).toOption.map
      (fun y => y.holidays) ≠ some [] :=
  ⟨rfl, by decide⟩

/-- Witness for C7: a concrete three-record year list, with the output
order preserved for the string order on dates. -/
theorem year_holidays_characterization_witness :
    current_year_holidays 2024
      (some [⟨"2024-01-01", true, "元旦", ""⟩, ⟨"2024-02-04", false, "春节", "班"⟩,
             ⟨"2024-02-10", true, "春节", ""⟩]) =
      .ok ⟨2024,
        ([⟨"2024-01-01", true, "元旦", ""⟩, ⟨"2024-02-04", false, "春节", "班"⟩,
          ⟨"2024-02-10", true, "春节", ""⟩].filter
            (fun d => d.isOffDay && d.name != "")).map
          (fun d => ⟨d.date, d.name, d.note, recordWeekdayEn d⟩),
        (([⟨"2024-01-01", true, "元旦", ""⟩, ⟨"2024-02-04", false, "春节", "班"⟩,
          ⟨"2024-02-10", true, "春节", ""⟩].filter
            (fun d => d.isOffDay && d.name != "")).map
          (fun d => (⟨d.date, d.name, d.note, recordWeekdayEn d⟩ : HolidayItemFm))).length⟩ ∧
    (([⟨"2024-01-01", true, "元旦", ""⟩, ⟨"2024-02-04", false, "春节", "班"⟩,
       ⟨"2024-02-10", true, "春节", ""⟩].filter
        (fun d => d.isOffDay && d.name != "")).map
      (fun d => (⟨d.date, d.name, d.note, recordWeekdayEn d⟩ : HolidayItemFm))).Pairwise
      (fun a b => strLt a.date b.date = true) :=
  ⟨(year_holidays_characterization 2024
      [⟨"2024-01-01", true, "元旦", ""⟩, ⟨"2024-02-04", false, "春节", "班"⟩,
       ⟨"2024-02-10", true, "春节", ""⟩]).2.1,
   ((year_holidays_characterization 2024
      [⟨"2024-01-01", true, "元旦", ""⟩, ⟨"2024-02-04", false, "春节", "班"⟩,
       ⟨"2024-02-10", true, "春节", ""⟩]).2.2 (fun a b => strLt a b = true)
      (by decide)).1⟩

/-- Current-year scan of the server next_holiday tool as a plain find?:
when every candidate record has a parsable date the scan cannot abort,
and it returns the first record qualifying against today. -/
theorem findQualifying_eq_find? (today : CalDate) :
    ∀ days : List DayRecord,
      (∀ d ∈ days, (d.isOffDay && d.name != "") = true → (parseDate d.date).isSome) →
      findQualifying today days = .ok (days.find? (qualifies today)) := by
  intro days
  induction days with
  | nil => intro _; rfl
  | cons d rest ih =>
    intro hp
    have hrest := fun d' hd' hb' => hp d' (List.mem_cons_of_mem _ hd') hb'
    by_cases hb : (d.isOffDay && d.name != "") = true
    · obtain ⟨dd, hdd⟩ := Option.isSome_iff_exists.mp
        (hp d (List.mem_cons_self _ _) hb)
      by_cases hlt : dateLt today dd = true
      · have hq : qualifies today d = true := by
          simp [qualifies, hdd, hlt]
          simp at hb
          exact hb
        rw [List.find?_cons_of_pos _ hq]
        simp [findQualifying, hb, hdd, hlt]
      · have hq : ¬ qualifies today d = true := by
          simp [qualifies, hdd]
          intro _ _
          simpa using hlt
        rw [List.find?_cons_of_neg _ hq]
        simp [findQualifying, hb, hdd, hlt, ih hrest]
    · have hq : ¬ qualifies today d = true := by
        simp [qualifies]
        intro h1 h2
        exact absurd (by simp [h1, h2]) hb
      rw [List.find?_cons_of_neg _ hq]
      simp [findQualifying, hb, ih hrest]

/-- C1 (amended): the server next_holiday scans the current year's list
in order for the first record with isOffDay true, non-empty name and
date strictly after today, and when the list order is ascending that
record is date-minimal among all qualifying records; when none exists it
resolves the next year's list and takes that list's first record with
isOffDay true and non-empty name, scanning the full list.  The scripts
get_next_holiday differs: it omits the non-empty-name requirement. -/
theorem next_holiday_selection (today : CalDate) (days : List DayRecord)
    (next_year_data : Option (List DayRecord))
    (hp : ∀ d ∈ days, (d.isOffDay && d.name != "") = true → (parseDate d.date).isSome) :
    (∀ d, days.find? (qualifies today) = some d →
      (next_holiday today (some days) next_year_data).toOption.map
        (fun r => (r.date, r.name, r.note)) = some (d.date, d.name, d.note)) ∧
    (days.find? (qualifies today) = none →
      (next_holiday today (some days) none = .error "未找到下一个节假日") ∧
      (∀ nds, next_year_data = some nds →
        (nds.find? (fun d => d.isOffDay && d.name != "") = none →
          next_holiday today (some days) next_year_data = .error "未找到下一个节假日") ∧
        (∀ d, nds.find? (fun d => d.isOffDay && d.name != "") = some d →
          (parseDate d.date).isSome →
          (next_holiday today (some days) next_year_data).toOption.map
            (fun r => (r.date, r.name, r.note)) = some (d.date, d.name, d.note)))) ∧
    (∀ R : String → String → Prop, days.Pairwise (fun a b => R a.date b.date) →
      ∀ d, days.find? (qualifies today) = some d →
        ∀ d' ∈ days, qualifies today d' = true → d = d' ∨ R d.date d'.date) := by
  have hfq := findQualifying_eq_find? today days hp
  refine ⟨?_, ?_, ?_⟩
  · intro d hfind
    have hq : qualifies today d = true := List.find?_some hfind
    have hparse : (parseDate d.date).isSome := by
      rcases hpp : parseDate d.date with _ | dd
      · simp [qualifies, hpp] at hq
      · simp
    obtain ⟨dd, hdd⟩ := Option.isSome_iff_exists.mp hparse
    simp [next_holiday, hfq, hfind, hdd]
    exact ⟨_, rfl, rfl, rfl, rfl⟩
  · intro hnone
    constructor
    · simp [next_holiday, findQualifying_eq_find? today days hp, hnone]
    · intro nds hnds
      subst hnds
      constructor
      · intro hfind2
        simp [next_holiday, hfq, hnone, hfind2]
      · intro d hfind2 hparse
        obtain ⟨dd, hdd⟩ := Option.isSome_iff_exists.mp hparse
        simp [next_holiday, hfq, hnone, hfind2, hdd]
        exact ⟨_, rfl, rfl, rfl, rfl⟩
  · intro R hR d hfind d' hd' hq'
    exact find?_min_of_pairwise hR hfind d' hd' hq'

/-- Counterexample to C1 as stated: the scripts implementation returns
the off-day record dated 2024-10-01 whose name is empty, while the claim
prescribes skipping it for the named record of 2024-10-02. -/
theorem next_holiday_scripts_counterexample :
    get_next_holiday "2024-06-01"
      (some [⟨"2024-10-01", true, "", ""⟩, ⟨"2024-10-02", true, "国庆节", ""⟩]) none =
      .ok ⟨"", "2024-10-01", 122, ""⟩ ∧
    (get_next_holiday "2024-06-01"
      (some [⟨"2024-10-01", true, "", ""⟩, ⟨"2024-10-02", true, "国庆节", ""⟩])
      none).toOption.map (fun r => r.name) ≠ some "国庆节" :=
  ⟨rfl, by decide⟩

/-- Witness for C1: a within-year pick after 2024-09-01, and the
year-boundary fallback from 2024-12-30 to the next year's New Year
record. -/
theorem next_holiday_selection_witness :
    (next_holiday ⟨2024, 9, 1⟩ (some [⟨"2024-10-01", true, "国庆节", ""⟩])
      none).toOption.map (fun r => (r.date, r.name, r.note)) =
      some ("2024-10-01", "国庆节", "") ∧
    (next_holiday ⟨2024, 12, 30⟩ (some [⟨"2024-10-01", true, "国庆节", ""⟩])
      (some [⟨"2025-01-01", true, "元旦", ""⟩])).toOption.map
      (fun r => (r.date, r.name, r.note)) = some ("2025-01-01", "元旦", "") :=
  ⟨(next_holiday_selection ⟨2024, 9, 1⟩ [⟨"2024-10-01", true, "国庆节", ""⟩] none
      (by decide)).1 ⟨"2024-10-01", true, "国庆节", ""⟩ (by decide),
   ((((next_holiday_selection ⟨2024, 12, 30⟩ [⟨"2024-10-01", true, "国庆节", ""⟩]
      (some [⟨"2025-01-01", true, "元旦", ""⟩]) (by decide)).2.1 (by decide)).2
      [⟨"2025-01-01", true, "元旦", ""⟩] rfl).2 ⟨"2025-01-01", true, "元旦", ""⟩
      (by decide) (by decide))⟩

/-- C2 (amended): when the current year's fetch is unavailable the
server next_holiday returns the data-unavailable error regardless of the
next year's outcome, and that answer differs from its no-upcoming-holiday
answer; the scripts get_next_holiday instead answers total
unavailability with its no-upcoming-holiday error. -/
theorem next_holiday_total_unavailability :
    (∀ (today : CalDate) (next_year_data : Option (List DayRecord)),
      next_holiday today none next_year_data = .error "无法获取节假日数据") ∧
    (∀ current_date : String,
      get_next_holiday current_date none none = .error "未找到未来的节假日") ∧
    "无法获取节假日数据" ≠ "未找到下一个节假日" :=
  ⟨fun _ _ => rfl, fun _ => rfl, by decide⟩

/-- Counterexample to C2 as stated: with both fetches unavailable the
scripts implementation produces exactly the same outcome as when both
years are available but hold no qualifying record — the
no-upcoming-holiday answer — rather than a distinct data-unavailable
outcome. -/
theorem next_holiday_scripts_unavailable_counterexample :
    get_next_holiday "2024-12-30" none none = .error "未找到未来的节假日" ∧
    get_next_holiday "2024-12-30" (some []) (some []) = .error "未找到未来的节假日" :=
  ⟨rfl, rfl⟩
